import Mathlib

/-!
Verification of `roll_post.py`, a 12-line utility that renames a blog post
file `_posts/YYYY-MM-DD-title.md` to `_posts/<today>-title.md`.

The script is:

  post = sys.argv[1]
  parts = re.match(r, post)        -- r is the dated-filename pattern below
  parts = parts.groupdict()
  today = datetime.datetime.today()
  new_post = the string "_posts/" + today as YYYY-MM-DD + "-" + title + ".md"
  os.rename(post, new_post)

We embed the concrete regular expression

  _posts/(\d,4)-(\d,2)-(\d,2)-(?P<title>.*).md

directly as a deterministic matcher on lists of characters, with Python
`re.match` semantics: the match is anchored at the start of the string but
NOT at the end; `.` matches any character except a newline; the `.*` of the
title group is greedy and backtracks from the longest candidate downward.
All group widths before the title are fixed, so the only backtracking point
is the title group. `\d` of a Python `str` pattern (no `re.ASCII` flag)
matches exactly the Unicode decimal digits, category Nd; `isDigRe` embeds
that category by its code point ranges (Unicode 14.0, the table of the
CPython 3.11 `unicodedata` the tool runs under; the ASCII digits 0-9 are
its first range).

`today.strftime` of the wall clock is treated as an input: the formatted
date string is a parameter of every definition that uses it, and
`fmtDate` models the YYYY-MM-DD formatting of a numeric date.

`os.rename` is external library code (Python's stdlib, not part of this
repository); it is modelled from the Python documentation, parameterised by
platform: on POSIX an existing destination is silently replaced, on Windows
it makes the call fail. The filesystem is a list of existing paths.
-/

/-- Consume the literal characters `lit` from the front of `s`; `none` on
mismatch. Models a fixed literal piece of the regular expression. -/
def dropLit : List Char → List Char → Option (List Char)
  | [], s => some s
  | _ :: _, [] => none
  | l :: ls, c :: cs => if c = l then dropLit ls cs else none

/-- Code point ranges (inclusive) of the Unicode decimal-digit category Nd,
Unicode 14.0: the character class Python's `\d` matches in a `str` pattern
without the `re.ASCII` flag. The first range is the ASCII digits 0-9. -/
def ndRanges : List (Nat × Nat) :=
  [(48, 57), (1632, 1641), (1776, 1785), (1984, 1993), (2406, 2415),
   (2534, 2543), (2662, 2671), (2790, 2799), (2918, 2927), (3046, 3055),
   (3174, 3183), (3302, 3311), (3430, 3439), (3558, 3567), (3664, 3673),
   (3792, 3801), (3872, 3881), (4160, 4169), (4240, 4249), (6112, 6121),
   (6160, 6169), (6470, 6479), (6608, 6617), (6784, 6793), (6800, 6809),
   (6992, 7001), (7088, 7097), (7232, 7241), (7248, 7257), (42528, 42537),
   (43216, 43225), (43264, 43273), (43472, 43481), (43504, 43513),
   (43600, 43609), (44016, 44025), (65296, 65305), (66720, 66729),
   (68912, 68921), (69734, 69743), (69872, 69881), (69942, 69951),
   (70096, 70105), (70384, 70393), (70736, 70745), (70864, 70873),
   (71248, 71257), (71360, 71369), (71472, 71481), (71904, 71913),
   (72016, 72025), (72784, 72793), (73040, 73049), (73120, 73129),
   (92768, 92777), (92864, 92873), (93008, 93017), (120782, 120831),
   (123200, 123209), (123632, 123641), (125264, 125273), (130032, 130041)]

/-- The character class `\d` of the pattern: `c` is a Unicode decimal
digit (category Nd). -/
def isDigRe (c : Char) : Bool :=
  ndRanges.any (fun r => r.1 ≤ c.toNat && c.toNat ≤ r.2)

/-- Consume exactly `n` decimal digits (`\d`, Unicode category Nd) from
the front of `s`; `none` if a non-digit or the end of the string is met.
Models a `\d` group of fixed width `n`. -/
def digitsN : Nat → List Char → Option (List Char)
  | 0, s => some s
  | _ + 1, [] => none
  | n + 1, c :: cs => if isDigRe c then digitsN n cs else none

/-- After the title group has consumed `k` characters of `s`, can the tail
`.md` of the pattern match? It needs one further non-newline character
(the wildcard dot) followed by the literal characters `m` and `d`; any
remaining characters are ignored because `re.match` does not anchor the
end. -/
def tryAt (s : List Char) (k : Nat) : Bool :=
  match s.drop k with
  | c :: m :: d :: _ => c != '\n' && m == 'm' && d == 'd'
  | _ => false

/-- Length of the longest newline-free run at the front of `s`: the most
characters the greedy `.*` of the title group can consume. -/
def nlRun : List Char → Nat
  | [] => 0
  | c :: cs => if c = '\n' then 0 else nlRun cs + 1

/-- Greedy backtracking search for the title width: try `k` characters
first, then `k - 1`, and so on down to `0`; `none` if no width lets the
tail `.md` of the pattern match. -/
def findK (s : List Char) : Nat → Option Nat
  | 0 => if tryAt s 0 then some 0 else none
  | k + 1 => if tryAt s (k + 1) then some (k + 1) else findK s k

/-- Match `(?P<title>.*).md` against `s` (unanchored at the end), returning
the captured title group. -/
def titleMatch (s : List Char) : Option (List Char) :=
  (findK s (nlRun s)).map (fun k => s.take k)

/-- The whole match: `re.match` of the dated-filename pattern against
`post`, returning the `title` capture group on success. `none` models a
failed match, after which `parts.groupdict()` raises `AttributeError` and
the process aborts. -/
def rollMatch (post : List Char) : Option (List Char) :=
  (dropLit "_posts/".data post).bind fun s1 =>
  (digitsN 4 s1).bind fun s2 =>
  (dropLit ['-'] s2).bind fun s3 =>
  (digitsN 2 s3).bind fun s4 =>
  (dropLit ['-'] s4).bind fun s5 =>
  (digitsN 2 s5).bind fun s6 =>
  (dropLit ['-'] s6).bind fun s7 =>
  titleMatch s7

/-- The f-string building the new path: `_posts/` + the formatted current
date + `-` + the captured title + `.md`. Named `new_post` after the
variable in the source. -/
def new_post (today title : List Char) : List Char :=
  "_posts/".data ++ (today ++ '-' :: (title ++ ".md".data))

/-- The path the renamer computes for a given input path, or `none` when
the match fails and the process aborts before computing one. -/
def computedNewPath (today post : List Char) : Option (List Char) :=
  (rollMatch post).map (fun t => new_post today t)

/-- A well-formed dated input path assembled from its pieces: `_posts/`,
the three digit groups, dashes, the title, and the literal suffix `.md`. -/
def mkPost (y m d title : List Char) : List Char :=
  "_posts/".data ++ (y ++ '-' :: (m ++ '-' :: (d ++ '-' :: (title ++ ".md".data))))

/-- `s` is a group of exactly `n` ASCII digits (the common case of the
date groups; a subclass of what `\d` accepts). -/
def digitGroup (n : Nat) (s : List Char) : Bool :=
  s.length == n && s.all Char.isDigit

/-- `s` is a group of exactly `n` decimal digits in the full sense of the
pattern's `\d` (Unicode category Nd). -/
def digitGroupRe (n : Nat) (s : List Char) : Bool :=
  s.length == n && s.all isDigRe

/-- Does `s` begin with the two literal characters `m`, `d`? The lookahead
used to describe where the pattern tail `.md` can start. -/
def startsMd : List Char → Bool
  | m :: d :: _ => m == 'm' && d == 'd'
  | _ => false

/-- Scan `s` for a position where the pattern tail `.md` can match: a
non-newline character (consumed by the wildcard dot) followed by the
letters `md`, with every character before it a non-newline (each must be
consumed by the title's `.*`). Equivalently: the letters `md` occur at
least one character into `s`, preceded only by non-newline characters. -/
def scanMd : List Char → Bool
  | [] => false
  | c :: rest => c != '\n' && (startsMd rest || scanMd rest)

/-- The acceptance class of the dated-filename pattern, written out
declaratively: the path splits as the literal `_posts/`, four decimal
digits, a dash, two decimal digits, a dash, two decimal digits, a dash,
and a remainder in which the letters `md` occur at least one character in,
preceded only by non-newline characters. Decimal digits are the Unicode
Nd digits that `\d` matches. The match of `rollMatch` succeeds exactly on
this class. -/
def acceptsPat (post : List Char) : Prop :=
  ∃ y m d s,
    post = "_posts/".data ++ (y ++ '-' :: (m ++ '-' :: (d ++ '-' :: s))) ∧
    digitGroupRe 4 y = true ∧ digitGroupRe 2 m = true ∧
    digitGroupRe 2 d = true ∧ scanMd s = true

/-- The ASCII digit character of `n < 10`. -/
def digitOf : Nat → Char
  | 0 => '0'
  | 1 => '1'
  | 2 => '2'
  | 3 => '3'
  | 4 => '4'
  | 5 => '5'
  | 6 => '6'
  | 7 => '7'
  | 8 => '8'
  | 9 => '9'
  | _ => '?'

/-- Two-digit zero-padded decimal rendering, as strftime `%m` and `%d`
produce for values below 100. -/
def pad2 (n : Nat) : List Char :=
  [digitOf (n / 10), digitOf (n % 10)]

/-- Four-digit zero-padded decimal rendering, as strftime `%Y` produces
for years below 10000. -/
def pad4 (n : Nat) : List Char :=
  [digitOf (n / 1000), digitOf (n / 100 % 10), digitOf (n / 10 % 10), digitOf (n % 10)]

/-- The strftime format `%Y-%m-%d` applied to a numeric date. -/
def fmtDate (y m d : Nat) : List Char :=
  pad4 y ++ ('-' :: (pad2 m ++ '-' :: pad2 d))

/-- Model of the Python standard library `os.rename` (external to this
repository), following its documentation. The filesystem is the list of
existing paths. The call fails (`none`, an `OSError`) when the source does
not exist, and also when the destination exists and the platform is not
POSIX (Windows refuses to replace an existing file); on POSIX an existing
destination is silently replaced. On success the source path is removed
and the destination path is present; a failed call leaves the filesystem
unchanged. -/
def os_rename (posix : Bool) (fs : List (List Char)) (src dst : List Char) :
    Option (List (List Char)) :=
  if src ∈ fs then
    if dst ∈ fs && !posix then none
    else some (dst :: fs.filter (fun p => p ≠ src && p ≠ dst))
  else none

/-- Outcome of one run of the script: normal exit (code 0) with the
resulting filesystem, or abnormal termination (non-zero exit, an uncaught
exception) with the filesystem at that point. -/
inductive RunResult where
  | ok (fs : List (List Char))
  | abort (fs : List (List Char))
deriving DecidableEq

/-- One run of `roll_post.py`: read `sys.argv[1]` (aborting with
`IndexError` when absent), match the pattern (aborting with
`AttributeError` on mismatch), build the new path from today's formatted
date, and call `os.rename` (aborting with `OSError` on failure). -/
def roll_post (posix : Bool) (today : List Char) (argv : List (List Char))
    (fs : List (List Char)) : RunResult :=
  match argv[1]? with
  | none => .abort fs
  | some post =>
    match rollMatch post with
    | none => .abort fs
    | some title =>
      match os_rename posix fs post (new_post today title) with
      | none => .abort fs
      | some fs2 => .ok fs2

/-! ## Helper lemmas about the matcher -/

theorem md_chars : ".md".data = ['.', 'm', 'd'] := by decide

theorem dropLit_append {l s : List Char} : dropLit l (l ++ s) = some s := by
  induction l with
  | nil => rfl
  | cons c cs ih => simp [dropLit, ih]

theorem dropLit_dash {s : List Char} : dropLit ['-'] ('-' :: s) = some s := by
  simp [dropLit]

theorem dropLit_take {l s r : List Char} (h : dropLit l s = some r) :
    s.take l.length = l := by
  induction l generalizing s with
  | nil => simp
  | cons c cs ih =>
    cases s with
    | nil => simp [dropLit] at h
    | cons a as =>
      by_cases hac : a = c
      · subst hac
        simp only [dropLit, if_pos rfl] at h
        simp [List.take, ih h]
      · simp [dropLit, hac] at h

theorem isDigRe_of_ascii {c : Char} (h : c.isDigit = true) :
    isDigRe c = true := by
  have h' : 48 ≤ c.toNat ∧ c.toNat ≤ 57 := by
    unfold Char.isDigit at h
    rw [Bool.and_eq_true, decide_eq_true_eq, decide_eq_true_eq] at h
    exact h
  simp only [isDigRe, ndRanges, List.any_cons, List.any_nil,
    Bool.or_eq_true, Bool.and_eq_true, decide_eq_true_eq]
  exact Or.inl ⟨h'.1, h'.2⟩

theorem all_isDigRe_of_ascii {g : List Char} (h : g.all Char.isDigit = true) :
    g.all isDigRe = true := by
  rw [List.all_eq_true] at h ⊢
  exact fun c hc => isDigRe_of_ascii (h c hc)

theorem digitsN_append {g s : List Char} {n : Nat}
    (hall : g.all isDigRe = true) (hlen : g.length = n) :
    digitsN n (g ++ s) = some s := by
  subst hlen
  induction g with
  | nil => rfl
  | cons c cs ih =>
    simp only [List.all_cons, Bool.and_eq_true] at hall
    simp [digitsN, hall.1, ih hall.2]

theorem nlRun_eq_length {s : List Char} (h : ∀ c ∈ s, c ≠ '\n') :
    nlRun s = s.length := by
  induction s with
  | nil => rfl
  | cons c cs ih =>
    have hc : c ≠ '\n' := h c (List.mem_cons_self c cs)
    simp only [nlRun, if_neg hc, List.length_cons]
    rw [ih (fun x hx => h x (List.mem_cons_of_mem c hx))]

theorem tryAt_false_of_le {s : List Char} {k : Nat} (h : s.length ≤ k + 2) :
    tryAt s k = false := by
  have hlen : (s.drop k).length ≤ 2 := by
    rw [List.length_drop]; omega
  unfold tryAt
  split
  · next c m2 d2 rest heq =>
      rw [heq] at hlen
      simp at hlen
  · rfl

theorem findK_step {s : List Char} {k : Nat} (h : tryAt s (k + 1) = false) :
    findK s (k + 1) = findK s k := by
  simp [findK, h]

theorem findK_self {s : List Char} {k : Nat} (h : tryAt s k = true) :
    findK s k = some k := by
  cases k with
  | zero => simp [findK, h]
  | succ n => simp [findK, h]

theorem titleMatch_append {t : List Char} (h : ∀ c ∈ t, c ≠ '\n') :
    titleMatch (t ++ ".md".data) = some t := by
  have hlen : (t ++ ".md".data).length = t.length + 3 := by
    rw [md_chars]; simp
  have hrun : nlRun (t ++ ".md".data) = t.length + 3 := by
    rw [nlRun_eq_length, hlen]
    intro c hc
    rcases List.mem_append.1 hc with h1 | h2
    · exact h c h1
    · rw [md_chars] at h2
      fin_cases h2 <;> decide
  have hT : tryAt (t ++ ".md".data) t.length = true := by
    unfold tryAt
    rw [List.drop_left, md_chars]
    decide
  have h1 : tryAt (t ++ ".md".data) (t.length + 1) = false :=
    tryAt_false_of_le (by rw [hlen])
  have h2 : tryAt (t ++ ".md".data) (t.length + 2) = false :=
    tryAt_false_of_le (by rw [hlen]; omega)
  have h3 : tryAt (t ++ ".md".data) (t.length + 3) = false :=
    tryAt_false_of_le (by rw [hlen]; omega)
  have hK : findK (t ++ ".md".data) (t.length + 3) = some t.length := by
    rw [findK_step h3, findK_step h2, findK_step h1, findK_self hT]
  unfold titleMatch
  rw [hrun, hK]
  simp [List.take_left]

theorem rollMatch_mkPost {y m d t : List Char}
    (hy : digitGroup 4 y = true) (hm : digitGroup 2 m = true)
    (hd : digitGroup 2 d = true) :
    rollMatch (mkPost y m d t) = titleMatch (t ++ ".md".data) := by
  simp only [digitGroup, Bool.and_eq_true, beq_iff_eq] at hy hm hd
  simp only [rollMatch, mkPost, dropLit_append, Option.some_bind,
    digitsN_append (all_isDigRe_of_ascii hy.2) hy.1, dropLit_dash,
    digitsN_append (all_isDigRe_of_ascii hm.2) hm.1,
    digitsN_append (all_isDigRe_of_ascii hd.2) hd.1]

theorem rollMatch_none_of_take7 {post : List Char}
    (h : post.take 7 ≠ "_posts/".data) : rollMatch post = none := by
  unfold rollMatch
  cases hd : dropLit "_posts/".data post with
  | none => rfl
  | some r =>
      have h7 : ("_posts/".data).length = 7 := by decide
      have := dropLit_take hd
      rw [h7] at this
      exact absurd this h

theorem roll_post_abort_of_none {posix : Bool} {today : List Char}
    {fs : List (List Char)} {prog post : List Char}
    (h : rollMatch post = none) :
    roll_post posix today [prog, post] fs = .abort fs := by
  simp [roll_post, h]

theorem os_rename_none_of_dst {fs : List (List Char)} {src dst : List Char}
    (h : dst ∈ fs) : os_rename false fs src dst = none := by
  unfold os_rename
  split
  · simp [h]
  · rfl

theorem new_post_inj {t1 t2 ttl : List Char}
    (h : new_post t1 ttl = new_post t2 ttl) : t1 = t2 := by
  unfold new_post at h
  exact List.append_cancel_right (List.append_cancel_left h)

theorem digitOf_inj : ∀ a, a < 10 → ∀ b, b < 10 → digitOf a = digitOf b → a = b := by
  decide

theorem fmtDate_inj {y m d y2 m2 d2 : Nat}
    (hy : y < 10000) (hm : m < 100) (hd : d < 100)
    (hy2 : y2 < 10000) (hm2 : m2 < 100) (hd2 : d2 < 100)
    (h : fmtDate y m d = fmtDate y2 m2 d2) : y = y2 ∧ m = m2 ∧ d = d2 := by
  simp only [fmtDate, pad4, pad2, List.cons_append, List.nil_append,
    List.cons.injEq, and_true] at h
  obtain ⟨e1, e2, e3, e4, -, e5, e6, -, e7, e8⟩ := h
  have g1 := digitOf_inj _ (by omega) _ (by omega) e1
  have g2 := digitOf_inj _ (by omega) _ (by omega) e2
  have g3 := digitOf_inj _ (by omega) _ (by omega) e3
  have g4 := digitOf_inj _ (by omega) _ (by omega) e4
  have g5 := digitOf_inj _ (by omega) _ (by omega) e5
  have g6 := digitOf_inj _ (by omega) _ (by omega) e6
  have g7 := digitOf_inj _ (by omega) _ (by omega) e7
  have g8 := digitOf_inj _ (by omega) _ (by omega) e8
  omega

/-! ## Characterization of the acceptance class -/

theorem tryAt_nil {k : Nat} : tryAt [] k = false := by
  cases k <;> rfl

theorem tryAt_cons_zero {c : Char} {rest : List Char} :
    tryAt (c :: rest) 0 = (c != '\n' && startsMd rest) := by
  unfold tryAt startsMd
  cases rest with
  | nil => simp
  | cons m t =>
    cases t with
    | nil => simp
    | cons d u =>
      show (c != '\n' && m == 'm' && d == 'd') =
        (c != '\n' && (m == 'm' && d == 'd'))
      rw [Bool.and_assoc]

theorem tryAt_cons_succ {c : Char} {rest : List Char} {k : Nat} :
    tryAt (c :: rest) (k + 1) = tryAt rest k := rfl

theorem findK_sound {s : List Char} {n k : Nat} (h : findK s n = some k) :
    k ≤ n ∧ tryAt s k = true := by
  induction n with
  | zero =>
    simp only [findK] at h
    by_cases h0 : tryAt s 0 = true
    · rw [if_pos h0] at h
      obtain rfl : (0 : Nat) = k := by injection h
      exact ⟨Nat.le_refl 0, h0⟩
    · rw [if_neg h0] at h
      cases h
  | succ n ih =>
    simp only [findK] at h
    by_cases h1 : tryAt s (n + 1) = true
    · rw [if_pos h1] at h
      obtain rfl : n + 1 = k := by injection h
      exact ⟨Nat.le_refl _, h1⟩
    · rw [if_neg h1] at h
      obtain ⟨hk, ht⟩ := ih h
      exact ⟨Nat.le_succ_of_le hk, ht⟩

theorem findK_complete {s : List Char} {k : Nat} (hk : tryAt s k = true) :
    ∀ n, k ≤ n → ∃ j, findK s n = some j := by
  intro n
  induction n with
  | zero =>
    intro hn
    obtain rfl : k = 0 := Nat.le_zero.mp hn
    exact ⟨0, by simp [findK, hk]⟩
  | succ n ih =>
    intro hn
    by_cases h1 : tryAt s (n + 1) = true
    · exact ⟨n + 1, by simp [findK, h1]⟩
    · have hkn : k ≤ n := by
        rcases Nat.lt_or_ge k (n + 1) with h | h
        · omega
        · obtain rfl : k = n + 1 := by omega
          exact absurd hk h1
      obtain ⟨j, hj⟩ := ih hkn
      exact ⟨j, by simp [findK, h1, hj]⟩

theorem scanMd_iff {s : List Char} :
    scanMd s = true ↔ ∃ k, k ≤ nlRun s ∧ tryAt s k = true := by
  induction s with
  | nil =>
    constructor
    · intro h
      simp [scanMd] at h
    · rintro ⟨k, -, ht⟩
      rw [tryAt_nil] at ht
      cases ht
  | cons c rest ih =>
    by_cases hc : c = '\n'
    · subst hc
      constructor
      · intro h
        simp [scanMd] at h
      · rintro ⟨k, hk, ht⟩
        obtain rfl : k = 0 := by
          simp [nlRun] at hk
          omega
        rw [tryAt_cons_zero] at ht
        simp at ht
    · constructor
      · intro h
        simp only [scanMd, Bool.and_eq_true, Bool.or_eq_true] at h
        obtain ⟨-, h2 | h2⟩ := h
        · refine ⟨0, Nat.zero_le _, ?_⟩
          rw [tryAt_cons_zero, h2]
          simp [hc]
        · obtain ⟨k, hk, ht⟩ := ih.mp h2
          refine ⟨k + 1, ?_, by rw [tryAt_cons_succ]; exact ht⟩
          simp only [nlRun, if_neg hc]
          omega
      · rintro ⟨k, hk, ht⟩
        cases k with
        | zero =>
          rw [tryAt_cons_zero, Bool.and_eq_true] at ht
          simp only [scanMd, Bool.and_eq_true, Bool.or_eq_true]
          exact ⟨ht.1, Or.inl ht.2⟩
        | succ k =>
          rw [tryAt_cons_succ] at ht
          have hk' : k ≤ nlRun rest := by
            simp only [nlRun, if_neg hc] at hk
            omega
          simp only [scanMd, Bool.and_eq_true, Bool.or_eq_true]
          exact ⟨by simp [hc], Or.inr (ih.mpr ⟨k, hk', ht⟩)⟩

theorem titleMatch_isSome_iff {s : List Char} :
    (∃ t, titleMatch s = some t) ↔ scanMd s = true := by
  rw [scanMd_iff]
  constructor
  · rintro ⟨t, ht⟩
    unfold titleMatch at ht
    cases hf : findK s (nlRun s) with
    | none => rw [hf] at ht; cases ht
    | some k =>
      obtain ⟨hk, htry⟩ := findK_sound hf
      exact ⟨k, hk, htry⟩
  · rintro ⟨k, hk, htry⟩
    obtain ⟨j, hj⟩ := findK_complete htry _ hk
    exact ⟨s.take j, by unfold titleMatch; rw [hj]; rfl⟩

theorem dropLit_sound {l s r : List Char} (h : dropLit l s = some r) :
    s = l ++ r := by
  induction l generalizing s with
  | nil =>
    simp only [dropLit, Option.some.injEq] at h
    simp [h]
  | cons c cs ih =>
    cases s with
    | nil => simp [dropLit] at h
    | cons a as =>
      by_cases hac : a = c
      · subst hac
        simp only [dropLit, if_pos rfl] at h
        simp [ih h]
      · simp [dropLit, hac] at h

theorem digitsN_sound {n : Nat} {s r : List Char} (h : digitsN n s = some r) :
    ∃ g, s = g ++ r ∧ g.length = n ∧ g.all isDigRe = true := by
  induction n generalizing s with
  | zero =>
    simp only [digitsN, Option.some.injEq] at h
    exact ⟨[], by simp [h], rfl, rfl⟩
  | succ n ih =>
    cases s with
    | nil => simp [digitsN] at h
    | cons c cs =>
      by_cases hc : isDigRe c = true
      · simp only [digitsN, if_pos hc] at h
        obtain ⟨g, hg1, hg2, hg3⟩ := ih h
        exact ⟨c :: g, by simp [hg1], by simp [hg2], by simp [hc, hg3]⟩
      · simp [digitsN, hc] at h

theorem rollMatch_isSome_iff {post : List Char} :
    (∃ t, rollMatch post = some t) ↔ acceptsPat post := by
  constructor
  · rintro ⟨t, ht⟩
    unfold rollMatch at ht
    rw [Option.bind_eq_some] at ht
    obtain ⟨s1, h1, ht⟩ := ht
    rw [Option.bind_eq_some] at ht
    obtain ⟨s2, h2, ht⟩ := ht
    rw [Option.bind_eq_some] at ht
    obtain ⟨s3, h3, ht⟩ := ht
    rw [Option.bind_eq_some] at ht
    obtain ⟨s4, h4, ht⟩ := ht
    rw [Option.bind_eq_some] at ht
    obtain ⟨s5, h5, ht⟩ := ht
    rw [Option.bind_eq_some] at ht
    obtain ⟨s6, h6, ht⟩ := ht
    rw [Option.bind_eq_some] at ht
    obtain ⟨s7, h7, ht⟩ := ht
    obtain ⟨y, hy1, hy2, hy3⟩ := digitsN_sound h2
    obtain ⟨m, hm1, hm2, hm3⟩ := digitsN_sound h4
    obtain ⟨d, hd1, hd2, hd3⟩ := digitsN_sound h6
    have hp := dropLit_sound h1
    have hs2 := dropLit_sound h3
    have hs4 := dropLit_sound h5
    have hs6 := dropLit_sound h7
    refine ⟨y, m, d, s7, ?_, ?_, ?_, ?_, ?_⟩
    · rw [hp, hy1, hs2, hm1, hs4, hd1, hs6]
      rfl
    · simp [digitGroupRe, hy2, hy3]
    · simp [digitGroupRe, hm2, hm3]
    · simp [digitGroupRe, hd2, hd3]
    · exact titleMatch_isSome_iff.mp ⟨t, ht⟩
  · rintro ⟨y, m, d, s, hpost, hy, hm, hd, hs⟩
    subst hpost
    simp only [digitGroupRe, Bool.and_eq_true, beq_iff_eq] at hy hm hd
    obtain ⟨t, ht⟩ := titleMatch_isSome_iff.mpr hs
    refine ⟨t, ?_⟩
    simp only [rollMatch, dropLit_append, Option.some_bind,
      digitsN_append hy.2 hy.1, dropLit_dash,
      digitsN_append hm.2 hm.1, digitsN_append hd.2 hd.1]
    exact ht

theorem rollMatch_none_iff {post : List Char} :
    rollMatch post = none ↔ ¬ acceptsPat post := by
  rw [← rollMatch_isSome_iff]
  cases h : rollMatch post with
  | none => simp
  | some t => simp

/-! ## Claim theorems -/

/-- Claim C1, counterexample: the claim quantifies over every path of the
form `_posts/YYYY-MM-DD-<title>.md`, but for a title containing a newline
(here the three characters `a`, newline, `b`) the match fails — Python's
`.` and `.*` do not match a newline — so the process aborts and the claimed
new path is never computed. -/
theorem newPath_newline_cex :
    computedNewPath "2024-06-15".data
        (mkPost "2023".data "01".data "01".data "a\nb".data) = none ∧
    computedNewPath "2024-06-15".data
        (mkPost "2023".data "01".data "01".data "a\nb".data) ≠
      some (new_post "2024-06-15".data "a\nb".data) := by
  constructor
  · decide
  · decide

/-- Claim C1 (amended): for every input path of the form
`_posts/YYYY-MM-DD-<title>.md` with exactly 4/2/2 digit groups whose title
contains no newline character, the new path computed by the renamer equals
`_posts/<today>-<title>.md`, `today` being the formatted execution date. -/
theorem newPath_wellFormed {today y m d t : List Char}
    (hy : digitGroup 4 y = true) (hm : digitGroup 2 m = true)
    (hd : digitGroup 2 d = true) (ht : ∀ c ∈ t, c ≠ '\n') :
    computedNewPath today (mkPost y m d t) = some (new_post today t) := by
  simp [computedNewPath, rollMatch_mkPost hy hm hd, titleMatch_append ht]

/-- Claim C1 witness (Scenario 1): `_posts/2023-01-01-hello-world.md` run
on 2024-06-15 is renamed to `_posts/2024-06-15-hello-world.md`. -/
theorem newPath_wellFormed_witness :
    computedNewPath "2024-06-15".data
        (mkPost "2023".data "01".data "01".data "hello-world".data) =
      some (new_post "2024-06-15".data "hello-world".data) ∧
    new_post "2024-06-15".data "hello-world".data =
      "_posts/2024-06-15-hello-world.md".data ∧
    mkPost "2023".data "01".data "01".data "hello-world".data =
      "_posts/2023-01-01-hello-world.md".data :=
  ⟨newPath_wellFormed (by decide) (by decide) (by decide) (by decide),
   by decide, by decide⟩

/-- Claim C2, counterexample: `_posts/2023-01-01-tXmd` does not end in the
literal suffix `.md`, yet the pattern accepts it with title `t` — the dot
of `.md` is a wildcard and `re.match` does not anchor the end — and the
tool renames the file instead of failing. -/
theorem mismatch_cex :
    rollMatch "_posts/2023-01-01-tXmd".data = some "t".data ∧
    roll_post true "2024-06-15".data
        ["roll_post.py".data, "_posts/2023-01-01-tXmd".data]
        ["_posts/2023-01-01-tXmd".data] =
      .ok ["_posts/2024-06-15-t.md".data] := by
  constructor
  · decide
  · decide

/-- Claim C2 (amended): the match fails exactly when the path is outside
the acceptance class `acceptsPat` — unless the path splits as the literal
`_posts/`, four decimal digits, a dash, two decimal digits, a dash, two
decimal digits, and a dash, followed by a remainder in which the letters
`md` occur at least one character further in with only non-newline
characters before them (the character directly before the `md` is consumed
by the wildcard dot of `.md`). Decimal digits are the Unicode Nd digits
Python's `\d` matches, not only ASCII. On every such failed match the tool
terminates abnormally with the filesystem untouched — no rename occurs; a
path need not end in the literal `.md` to be accepted, since the dot is a
wildcard and the match is unanchored at the end. -/
theorem abort_on_mismatch {posix : Bool} {today : List Char}
    {fs : List (List Char)} {prog post : List Char} :
    (rollMatch post = none ↔ ¬ acceptsPat post) ∧
    (rollMatch post = none →
      roll_post posix today [prog, post] fs = .abort fs) :=
  ⟨rollMatch_none_iff, fun h => roll_post_abort_of_none h⟩

/-- Claim C2 witness: a malformed date group (`20a3`) makes the match fail
— so, by the characterization, the path is outside the acceptance class —
and the run aborts with the filesystem exactly as it was. -/
theorem abort_on_mismatch_witness :
    (rollMatch "_posts/20a3-01-01-t.md".data = none ↔
      ¬ acceptsPat "_posts/20a3-01-01-t.md".data) ∧
    roll_post true "2024-06-15".data
        ["roll_post.py".data, "_posts/20a3-01-01-t.md".data]
        ["_posts/20a3-01-01-t.md".data] =
      .abort ["_posts/20a3-01-01-t.md".data] :=
  ⟨(@abort_on_mismatch true "2024-06-15".data
      ["_posts/20a3-01-01-t.md".data] "roll_post.py".data
      "_posts/20a3-01-01-t.md".data).1,
   (@abort_on_mismatch true "2024-06-15".data
      ["_posts/20a3-01-01-t.md".data] "roll_post.py".data
      "_posts/20a3-01-01-t.md".data).2 (by decide)⟩

/-- Claim C3, counterexample: on POSIX, `os.rename` silently replaces an
existing destination. With both `_posts/2023-01-01-x.md` and its rename
target `_posts/2024-06-15-x.md` on disk, the run succeeds (exit 0) and the
target is replaced — the tool does not fail and the filesystem does
change. -/
theorem collision_cex :
    "_posts/2024-06-15-x.md".data ∈
        (["_posts/2023-01-01-x.md".data, "_posts/2024-06-15-x.md".data] :
          List (List Char)) ∧
    roll_post true "2024-06-15".data
        ["roll_post.py".data, "_posts/2023-01-01-x.md".data]
        ["_posts/2023-01-01-x.md".data, "_posts/2024-06-15-x.md".data] =
      .ok ["_posts/2024-06-15-x.md".data] := by
  constructor
  · decide
  · decide

/-- Claim C3 (amended): on platforms where `os.rename` refuses to replace
an existing destination (Windows), a run whose computed target already
exists terminates abnormally and leaves the filesystem — in particular the
source file — untouched; on POSIX the rename instead succeeds and silently
replaces the target. -/
theorem collision_windows_abort {today : List Char} {fs : List (List Char)}
    {prog post t : List Char}
    (hm : rollMatch post = some t) (hdst : new_post today t ∈ fs) :
    roll_post false today [prog, post] fs = .abort fs := by
  simp [roll_post, hm, os_rename_none_of_dst hdst]

/-- Claim C3 witness: with the rename target `_posts/2024-06-15-w.md`
already present, the Windows-semantics run aborts with the filesystem
unchanged. -/
theorem collision_windows_abort_witness :
    roll_post false "2024-06-15".data
        ["roll_post.py".data, "_posts/2023-01-01-w.md".data]
        ["_posts/2023-01-01-w.md".data, "_posts/2024-06-15-w.md".data] =
      .abort ["_posts/2023-01-01-w.md".data, "_posts/2024-06-15-w.md".data] :=
  collision_windows_abort
    (show rollMatch "_posts/2023-01-01-w.md".data = some "w".data by decide)
    (by decide)

/-- Claim C4: any path whose first seven characters are not the literal
`_posts/` fails the match (which is anchored at the start), so the tool
terminates abnormally and the filesystem is unchanged — no rename occurs. -/
theorem abort_wrong_dir {posix : Bool} {today : List Char}
    {fs : List (List Char)} {prog post : List Char}
    (h : post.take 7 ≠ "_posts/".data) :
    roll_post posix today [prog, post] fs = .abort fs :=
  roll_post_abort_of_none (rollMatch_none_of_take7 h)

/-- Claim C4 witness (Scenario 3): the specific input
`notes/2023-01-01-draft.md` aborts the run with the filesystem unchanged. -/
theorem abort_wrong_dir_witness :
    roll_post true "2024-06-15".data
        ["roll_post.py".data, "notes/2023-01-01-draft.md".data]
        ["notes/2023-01-01-draft.md".data] =
      .abort ["notes/2023-01-01-draft.md".data] :=
  abort_wrong_dir (by decide)

/-- Claim C5: the captured title group is opaque and passed through
unchanged: whenever the match captures title `t`, the computed new path is
literally `_posts/` ++ today ++ `-` ++ t ++ `.md`, with `t` verbatim
between `<today>-` and `.md`. -/
theorem title_passthrough {today post t : List Char}
    (h : rollMatch post = some t) :
    computedNewPath today post =
      some ("_posts/".data ++ (today ++ '-' :: (t ++ ".md".data))) := by
  simp [computedNewPath, h, new_post]

/-- Claim C5 witness (Scenario 2): the hyphenated title `a-b-c` of
`_posts/2023-01-01-a-b-c.md` is captured whole and preserved verbatim in
the new filename. -/
theorem title_passthrough_witness :
    rollMatch "_posts/2023-01-01-a-b-c.md".data = some "a-b-c".data ∧
    computedNewPath "2024-06-15".data "_posts/2023-01-01-a-b-c.md".data =
      some ("_posts/".data ++ ("2024-06-15".data ++ '-' ::
        ("a-b-c".data ++ ".md".data))) :=
  ⟨by decide, title_passthrough (by decide)⟩

/-- Claim C6: the operation is not idempotent across days: for a fixed
input path that the pattern accepts, runs on two different execution dates
(within the zero-padded ranges strftime renders: year below 10000, month
and day below 100) compute two different new filenames — the output path is
injective in the formatted date for a fixed title. -/
theorem distinct_dates_distinct_paths {y m d y2 m2 d2 : Nat}
    {post ttl : List Char}
    (hy : y < 10000) (hm : m < 100) (hd : d < 100)
    (hy2 : y2 < 10000) (hm2 : m2 < 100) (hd2 : d2 < 100)
    (hne : ¬(y = y2 ∧ m = m2 ∧ d = d2))
    (hmatch : rollMatch post = some ttl) :
    computedNewPath (fmtDate y m d) post ≠
      computedNewPath (fmtDate y2 m2 d2) post := by
  intro h
  simp only [computedNewPath, hmatch, Option.map_some', Option.some.injEq] at h
  exact hne (fmtDate_inj hy hm hd hy2 hm2 hd2 (new_post_inj h))

/-- Claim C6 witness: the same post rolled on 2024-06-15 and on 2024-06-16
gets two different filenames. -/
theorem distinct_dates_distinct_paths_witness :
    computedNewPath (fmtDate 2024 6 15) "_posts/2023-01-01-hi.md".data ≠
      computedNewPath (fmtDate 2024 6 16) "_posts/2023-01-01-hi.md".data :=
  distinct_dates_distinct_paths (by omega) (by omega) (by omega)
    (by omega) (by omega) (by omega) (by decide)
    (show rollMatch "_posts/2023-01-01-hi.md".data = some "hi".data by decide)

/-- Claim C7: the process exits with code 0 exactly when the pattern match
succeeded and the filesystem rename succeeded; on every other path —
pattern mismatch, missing source file, refused rename — it terminates
abnormally. -/
theorem ok_iff_match_and_rename {posix : Bool} {today : List Char}
    {fs : List (List Char)} {prog post : List Char} :
    (∃ fs2, roll_post posix today [prog, post] fs = .ok fs2) ↔
    (∃ t, rollMatch post = some t ∧
      ∃ fs2, os_rename posix fs post (new_post today t) = some fs2) := by
  unfold roll_post
  simp only [List.getElem?_cons_succ, List.getElem?_cons_zero]
  cases hm : rollMatch post with
  | none => simp
  | some t =>
    cases hr : os_rename posix fs post (new_post today t) with
    | none => simp [hr]
    | some fs2 => simp [hr]

/-- Claim C8: invoked with no positional argument, the process aborts while
reading `sys.argv[1]` (an `IndexError`), uniformly in the filesystem — it
never reaches the pattern match or the rename, so nothing on disk
changes. -/
theorem abort_missing_arg {posix : Bool} {today : List Char}
    {fs : List (List Char)} {argv : List (List Char)}
    (h : argv.length ≤ 1) :
    roll_post posix today argv fs = .abort fs := by
  have hn : argv[1]? = none := List.getElem?_eq_none h
  simp [roll_post, hn]

/-- Claim C8 witness: a run with only the program name in `argv` aborts and
leaves the (non-empty) filesystem as it was. -/
theorem abort_missing_arg_witness :
    roll_post true "2024-06-15".data ["roll_post.py".data]
        ["_posts/2020-05-05-q.md".data] =
      .abort ["_posts/2020-05-05-q.md".data] :=
  abort_missing_arg (by decide)

/-- Claim C9: the computed new path does not depend on the embedded date
digits of the input: two inputs differing only in their 4/2/2 digit groups
— including semantically impossible dates such as month 99, which the
pattern still accepts — yield the same new path on the same execution
date. -/
theorem newPath_ignores_date {today y m d y2 m2 d2 t : List Char}
    (hy : digitGroup 4 y = true) (hm : digitGroup 2 m = true)
    (hd : digitGroup 2 d = true)
    (hy2 : digitGroup 4 y2 = true) (hm2 : digitGroup 2 m2 = true)
    (hd2 : digitGroup 2 d2 = true) :
    computedNewPath today (mkPost y m d t) =
      computedNewPath today (mkPost y2 m2 d2 t) := by
  unfold computedNewPath
  rw [rollMatch_mkPost hy hm hd, rollMatch_mkPost hy2 hm2 hd2]

/-- Claim C9 witness: the impossible date `9999-99-99` is accepted and
rolls to the same new path as `2023-01-01` for the same title. -/
theorem newPath_ignores_date_witness :
    rollMatch (mkPost "9999".data "99".data "99".data "x".data) =
      some "x".data ∧
    computedNewPath "2024-06-15".data
        (mkPost "9999".data "99".data "99".data "x".data) =
      computedNewPath "2024-06-15".data
        (mkPost "2023".data "01".data "01".data "x".data) :=
  ⟨by decide, newPath_ignores_date (by decide) (by decide) (by decide)
    (by decide) (by decide) (by decide)⟩

/-- Claim C10: an empty title is accepted at the public interface: an input
`_posts/YYYY-MM-DD-.md` matches with title equal to the empty string, and
the tool goes on to attempt a rename to `_posts/<today>-.md`. -/
theorem empty_title_accepted {today y m d : List Char}
    (hy : digitGroup 4 y = true) (hm : digitGroup 2 m = true)
    (hd : digitGroup 2 d = true) :
    rollMatch (mkPost y m d []) = some [] ∧
    computedNewPath today (mkPost y m d []) =
      some ("_posts/".data ++ (today ++ '-' :: ".md".data)) := by
  have h1 : rollMatch (mkPost y m d []) = some [] := by
    rw [rollMatch_mkPost hy hm hd]
    exact titleMatch_append (by simp)
  refine ⟨h1, ?_⟩
  simp [computedNewPath, h1, new_post]

/-- Claim C10 witness: `_posts/2023-01-01-.md` matches with the empty title
and rolls to `_posts/2024-06-15-.md`. -/
theorem empty_title_accepted_witness :
    rollMatch (mkPost "2023".data "01".data "01".data []) = some [] ∧
    computedNewPath "2024-06-15".data
        (mkPost "2023".data "01".data "01".data []) =
      some ("_posts/".data ++ ("2024-06-15".data ++ '-' :: ".md".data)) :=
  empty_title_accepted (by decide) (by decide) (by decide)
